import Mathlib

/-!
Verification development for the QR-code generator in `app.py`.

The core of the program is `generate_qr_code_with_logo(url, logo_path, logo_size_ratio=0.25)`
(app.py lines 16-59): it encodes a URL as a QR symbol via the `qrcode` library at
error-correction level H (box_size 10, border 4), renders it to an RGB raster, and -
when the logo file exists - resizes the logo with `Image.thumbnail`, builds a circular
(`ImageDraw.ellipse`) single-channel mask, pastes the masked logo into a fresh
transparent RGBA image, and pastes that onto the center of the QR canvas.

The embedding below models the raster pipeline exactly at the pixel level:
images are width/height plus a pixel function, PIL `paste` with a mask is the
per-band linear blend (exact at mask values 0 and 255, the only values the mask
produced by `ImageDraw.ellipse(..., fill=255)` on a zero-initialised image takes),
and the size computation of `Image.thumbnail` is rendered in exact integer arithmetic.
The external `qrcode` encoder is taken as an input module grid (its output), and
its capacity/fit contract is modelled from the spec where noted.
-/

/-- A raster image: dimensions plus a total pixel function (pixels outside the
`width × height` window are never consulted by the operations below). -/
structure Img (α : Type) where
  width : Nat
  height : Nat
  px : Nat → Nat → α

/-- An RGB pixel, one byte per channel, as in a PIL "RGB"-mode image. -/
structure RGB where
  r : Nat
  g : Nat
  b : Nat
deriving DecidableEq

/-- An RGBA pixel as in a PIL "RGBA"-mode image. -/
structure RGBA where
  r : Nat
  g : Nat
  b : Nat
  a : Nat
deriving DecidableEq

/-- Exceptions the PIL calls in `generate_qr_code_with_logo` can raise:
`Image.open` on present-but-unreadable bytes raises `UnidentifiedImageError`,
and `Image.thumbnail` raises `ZeroDivisionError` when the target height floors
to zero (the `x / y` branch test divides by the target height). -/
inductive PILError where
  | unidentifiedImage
  | zeroDivision
deriving DecidableEq

/-- The three situations `generate_qr_code_with_logo` can find the logo resource in:
the file named `logo_path` is absent (`os.path.exists` is false, app.py line 36),
the file is present but `Image.open` cannot decode it, or it decodes to an RGBA
image (app.py line 44 converts to RGBA on load). -/
inductive LogoSource where
  | missing
  | unreadable
  | readable (img : Img RGBA)

/-- Result of `generate_qr_code_with_logo`: the returned image, plus whether the
`st.error` branch for a missing logo ran (the `LogoUnavailable` signal of the spec,
app.py lines 37-42). -/
structure GenOutput where
  image : Img RGB
  logoWarning : Bool

/-- PIL paste-with-mask per-band blend: `out = in * (255 - m)/255 + src * m/255`,
with the rounding written as a single division. At the mask values this
development ever relies on (0 and 255) the formula is exact and agrees with
PIL bit-for-bit; interior mask values differ from PIL by at most one unit of
rounding and are never produced by the binary ellipse mask. -/
def blend (d s m : Nat) : Nat := (d * (255 - m) + s * m + 127) / 255

/-- PIL `dest.paste(src, (0, 0), mask)` for RGBA `dest`/`src` and an "L"-mode
`mask` (app.py line 54): within the overlap every band, including alpha, is
blended by the mask value; elsewhere the destination is kept. -/
def pasteMaskedRGBA (dest src : Img RGBA) (mask : Img Nat) : Img RGBA :=
  { width := dest.width, height := dest.height,
    px := fun x y =>
      if x < src.width ∧ y < src.height ∧ x < mask.width ∧ y < mask.height then
        { r := blend (dest.px x y).r (src.px x y).r (mask.px x y),
          g := blend (dest.px x y).g (src.px x y).g (mask.px x y),
          b := blend (dest.px x y).b (src.px x y).b (mask.px x y),
          a := blend (dest.px x y).a (src.px x y).a (mask.px x y) }
      else dest.px x y }

/-- PIL `dest.paste(src, pos, src)` for an RGB `dest` and RGBA `src` used as its
own mask (app.py line 57): PIL takes the alpha band of the RGBA mask, so inside
the pasted rectangle each colour band is blended by the source alpha, and every
destination pixel outside the rectangle is untouched. A negative offset simply
clips, which the coordinate arithmetic below reproduces. -/
def pasteRGB (dest : Img RGB) (src : Img RGBA) (pos : Int × Int) : Img RGB :=
  { width := dest.width, height := dest.height,
    px := fun x y =>
      let sx : Int := (x : Int) - pos.1
      let sy : Int := (y : Int) - pos.2
      if 0 ≤ sx ∧ sx < (src.width : Int) ∧ 0 ≤ sy ∧ sy < (src.height : Int) then
        { r := blend (dest.px x y).r (src.px sx.toNat sy.toNat).r (src.px sx.toNat sy.toNat).a,
          g := blend (dest.px x y).g (src.px sx.toNat sy.toNat).g (src.px sx.toNat sy.toNat).a,
          b := blend (dest.px x y).b (src.px sx.toNat sy.toNat).b (src.px sx.toNat sy.toNat).a }
      else dest.px x y }

/-- PIL RGBA `Image.new` with fill (0, 0, 0, 0) (app.py line 53). -/
def transparentImg (w h : Nat) : Img RGBA :=
  { width := w, height := h, px := fun _ _ => { r := 0, g := 0, b := 0, a := 0 } }

/-- Resampling step of `Image.thumbnail`, which the source calls with
`Image.LANCZOS` (app.py line 47). The target dimensions are exact; the
interpolated pixel values are modelled by nearest-neighbour lookup, since no
property verified here inspects a resampled colour value (only dimensions and
the mask geometry matter downstream). -/
def resizeTo (im : Img RGBA) (w h : Nat) : Img RGBA :=
  { width := w, height := h,
    px := fun x y => im.px (x * im.width / w) (y * im.height / h) }

/-- Membership of the pixel at column `x`, row `y` in the filled ellipse that
`ImageDraw.ellipse((0, 0, w, h), fill=255)` draws (app.py line 51): the ellipse
with the inclusive bounding box `[0, w] × [0, h]`, i.e. centre `(w/2, h/2)` and
radii `w/2`, `h/2`. A pixel is in it when its centre `(x + 1/2, y + 1/2)`
satisfies the ellipse inequality; clearing denominators over `ℤ` gives the
closed integer form used here. -/
def inEllipse (w h x y : Nat) : Prop :=
  ((2 * x + 1 : Int) - w) ^ 2 * h ^ 2 + ((2 * y + 1 : Int) - h) ^ 2 * w ^ 2
    ≤ (w : Int) ^ 2 * h ^ 2

instance (w h x y : Nat) : Decidable (inEllipse w h x y) := by
  unfold inEllipse; exact inferInstance

/-- Membership of the pixel at `(x, y)` in the disk inscribed in the `w × h`
box in the strict sense of the word "circle": the largest circle contained in
the box, of radius `min w h / 2` about the box centre. This definition follows
the wording of the specification ("the inscribed circle of the resized logo
bounding box") and exists to be compared against the ellipse the code actually draws. -/
def inCircle (w h x y : Nat) : Prop :=
  ((2 * x + 1 : Int) - w) ^ 2 + ((2 * y + 1 : Int) - h) ^ 2 ≤ (min w h : Int) ^ 2

instance (w h x y : Nat) : Decidable (inCircle w h x y) := by
  unfold inCircle; exact inferInstance

/-- The mask built on app.py lines 49-51: an "L"-mode image of the resized
logo dimensions, zero-initialised, with the inscribed ellipse filled at 255. -/
def ellipseMask (w h : Nat) : Img Nat :=
  { width := w, height := h, px := fun x y => if inEllipse w h x y then 255 else 0 }

/-- Choice the Pillow `round_aspect` helper makes inside `Image.thumbnail` for
the branch that recomputes the width: candidates are the floor and the ceiling
of the exact rational `num / den`, the one whose aspect error is smaller wins
(Python `min` keeps the floor on ties; the error comparison has the common
denominator cancelled, so it is exact), and the result is clamped to be at
least 1. -/
def roundAspectA (num den : Nat) : Nat :=
  let fl := num / den
  let ce := (num + den - 1) / den
  max (if num - fl * den ≤ ce * den - num then fl else ce) 1

/-- Choice the Pillow `round_aspect` helper makes for the branch that recomputes
the height. The aspect errors `|w/h - x/n|` of the two candidates have distinct
denominators, so the comparison is cross-multiplied; a zero floor candidate is
assigned error 0 by Pillow and therefore always chosen before clamping. -/
def roundAspectB (num den : Nat) : Nat :=
  let fl := num / den
  let ce := (num + den - 1) / den
  max (if fl = 0 then fl
       else if (num - fl * den) * ce ≤ (ce * den - num) * fl then fl else ce) 1

/-- Size computation of the Pillow `Image.thumbnail((x, y))` call on a `w × h` image:
if the box already contains the image, do nothing; otherwise keep the aspect
ratio, recomputing the dimension that overshoots. The branch test
`x / y >= aspect` is `y * w ≤ x * h` in exact arithmetic; Python raises
`ZeroDivisionError` there when the target height (or the image height, through
`aspect = w / h`) is zero, which the error case reproduces. -/
def thumbnailSizeE (w h x y : Nat) : Except PILError (Nat × Nat) :=
  if w ≤ x ∧ h ≤ y then .ok (w, h)
  else if h = 0 ∨ y = 0 then .error .zeroDivision
  else if y * w ≤ x * h then .ok (roundAspectA (y * w) h, y)
  else .ok (x, roundAspectB (x * h) w)

/-- The target bounding-box side `int(length * logo_size_ratio)` of app.py
lines 45-46. Python `int()` truncates toward zero, which for the non-negative
products arising here is the floor; with the ratio written `num / den` in
lowest terms the floor is the integer floor-division `(length * num) fdiv den`. -/
def logoTarget (len : Nat) (r : ℚ) : Nat :=
  (((len : Int) * r.num).fdiv (r.den : Int)).toNat

/-- The paste offset of app.py line 56:
`((qr_width - logo_w) // 2, (qr_height - logo_h) // 2)` with Python `//`,
i.e. floor division on possibly negative integers. -/
def pastePos (w h lw lh : Nat) : Int × Int :=
  (((w : Int) - lw).fdiv 2, ((h : Int) - lh).fdiv 2)

/-- Rendering of the module grid returned by `qr.make_image(fill_color="black",
back_color="white").convert("RGB")` with the constructor arguments of app.py
lines 20-25: every module becomes a 10 × 10 block, a border of 4 background
modules surrounds the symbol, dark modules are black and everything else white. -/
def renderQR (grid : List (List Bool)) : Img RGB :=
  { width := (grid.length + 2 * 4) * 10,
    height := (grid.length + 2 * 4) * 10,
    px := fun x y =>
      let mx : Int := ((x / 10 : Nat) : Int) - 4
      let my : Int := ((y / 10 : Nat) : Int) - 4
      if 0 ≤ mx ∧ mx < (grid.length : Int) ∧ 0 ≤ my ∧ my < (grid.length : Int)
          ∧ (grid.getD my.toNat []).getD mx.toNat false = true then
        { r := 0, g := 0, b := 0 }
      else { r := 255, g := 255, b := 255 } }

/-- The masked logo of app.py lines 49-54: a fresh transparent RGBA canvas of
the resized logo dimensions with the resized logo pasted through the ellipse
mask. -/
def roundedLogo (logo : Img RGBA) (lw lh : Nat) : Img RGBA :=
  pasteMaskedRGBA (transparentImg lw lh) (resizeTo logo lw lh) (ellipseMask lw lh)

/-- The logo branch of `generate_qr_code_with_logo` (app.py lines 44-57):
compute the ratio-derived target box, thumbnail the logo into it, build the
mask and the rounded logo, and paste it at the centred offset. -/
def composeLogo (qrImg : Img RGB) (logo : Img RGBA) (r : ℚ) : Except PILError (Img RGB) :=
  match thumbnailSizeE logo.width logo.height
      (logoTarget qrImg.width r) (logoTarget qrImg.height r) with
  | .error e => .error e
  | .ok (lw, lh) =>
      .ok (pasteRGB qrImg (roundedLogo logo lw lh) (pastePos qrImg.width qrImg.height lw lh))

/-- The whole of `generate_qr_code_with_logo` (app.py lines 16-59) over the
module grid the `qrcode` library returns for the URL. A missing logo file
takes the early return of lines 36-42: the bare QR canvas is returned and the
`st.error` message - the `LogoUnavailable` signal - is recorded in the output.
Unreadable logo bytes make `Image.open` on line 44 raise. -/
def generate_qr_code_with_logo (grid : List (List Bool)) (logo : LogoSource) (r : ℚ) :
    Except PILError GenOutput :=
  match logo with
  | .missing => .ok { image := renderQR grid, logoWarning := true }
  | .unreadable => .error .unidentifiedImage
  | .readable lg =>
      match composeLogo (renderQR grid) lg r with
      | .ok im => .ok { image := im, logoWarning := false }
      | .error e => .error e

/-- Serialisation of the final image as on app.py lines 248-250
(`qr_image_final.save(download_buffer, format="PNG")`). PNG is lossless, so at
this abstraction the byte stream is a deterministic function of the pixel
data; the deflate container details do not affect any property stated here,
and the bytes are modelled as the dimensions followed by the row-major
channel values. -/
def serializePNG (im : Img RGB) : List Nat :=
  im.width :: im.height ::
    (((List.range im.height).map fun y =>
      ((List.range im.width).map fun x =>
        [(im.px x y).r, (im.px x y).g, (im.px x y).b]).flatten).flatten)

/-- The `compose` operation of the spec, payload-to-bytes: generate the composited
image and serialise it. -/
def composeBytes (grid : List (List Bool)) (logo : LogoSource) (r : ℚ) :
    Except PILError (List Nat) :=
  match generate_qr_code_with_logo grid logo r with
  | .ok out => .ok (serializePNG out.image)
  | .error e => .error e

/-- Python truthiness of a PIL image: `Image` defines neither `__bool__` nor
`__len__`, so the guard `if qr_image_final:` on app.py line 238 sees the
default object truthiness, which is `True` for every image. -/
def pilTruthy (_im : Img RGB) : Bool := true

/-- The error-correction levels of the `qrcode` library
(`qrcode.constants.ERROR_CORRECT_L/M/Q/H`). -/
inductive ErrorCorrection where
  | L
  | M
  | Q
  | H
deriving DecidableEq

/-- The keyword arguments of the `qrcode.QRCode(...)` constructor call on
app.py lines 20-25. -/
structure QRCodeConfig where
  version : Nat
  error_correction : ErrorCorrection
  box_size : Nat
  border : Nat
deriving DecidableEq

/-- The configuration `generate_qr_code_with_logo` hands to the encoder for a
given payload. The source builds the same literal `QRCode(version=1,
error_correction=ERROR_CORRECT_H, box_size=10, border=4)` on every call, with
no code path depending on the URL and no parameter by which a caller could
change the level. -/
def qrConfigFor (_url : String) : QRCodeConfig :=
  { version := 1, error_correction := .H, box_size := 10, border := 4 }

/-- Modelled from the spec: the QR encoder is the external `qrcode` library
(only its call site is in the repository), whose contract the spec gives as
"payload must fit within the maximum capacity of the largest supported grid
version at the requested error-correction level; if not, the encoder must
either auto-select a larger version (fit policy) or fail with a
CapacityExceeded condition". These are the standard byte-mode data capacities
of QR versions 1-40 at level H. -/
def byteCapH : List Nat :=
  [7, 14, 24, 34, 44, 58, 64, 84, 98, 119, 137, 155, 177, 194, 220, 250,
   280, 310, 338, 382, 403, 439, 461, 511, 535, 593, 625, 658, 698, 742,
   790, 842, 898, 958, 983, 1051, 1093, 1139, 1219, 1273]

/-- Modelled from the spec: byte capacity of grid version `v` (1-40) at the
fixed error-correction level H. -/
def capacityH (v : Nat) : Nat := byteCapH.getD (v - 1) 0

/-- The supported grid versions, smallest first. -/
def versionList : List Nat := (List.range 40).map (· + 1)

/-- Modelled from the spec: the fit policy - choose the first version whose
capacity holds the payload. -/
def fitVersionH (len : Nat) : Option Nat :=
  versionList.find? fun v => decide (len ≤ capacityH v)

/-- A QR symbol: the chosen version and its module-grid side length
`17 + 4 * version`. -/
structure QRSymbol where
  version : Nat
  moduleCount : Nat
deriving DecidableEq

/-- The `CapacityExceeded` condition of the error taxonomy of the spec
(the `DataOverflowError` of the `qrcode` library). -/
inductive EncodeError where
  | capacityExceeded
deriving DecidableEq

/-- Modelled from the spec: the encode step at level H with the fit policy. On
success a symbol is produced; an oversized payload yields `CapacityExceeded`
and no image. -/
def encodeQR (payload : String) : Except EncodeError QRSymbol :=
  match fitVersionH payload.length with
  | some v => .ok { version := v, moduleCount := 17 + 4 * v }
  | none => .error .capacityExceeded

/-- A concrete 21 × 21 module grid (the version-1 side length) used as the
encoder output in concrete instantiations. -/
def sampleGrid : List (List Bool) :=
  (List.range 21).map fun i => (List.range 21).map fun j => (i + j) % 2 == 0

/-- A concrete 400 × 100 opaque red logo asset. -/
def logoC : Img RGBA :=
  { width := 400, height := 100, px := fun _ _ => { r := 255, g := 0, b := 0, a := 255 } }

/-- The default `logo_size_ratio = 0.25` of app.py line 16, as the reduced
rational 1/4 (built by its constructor so that it evaluates in the kernel). -/
def quarterRat : ℚ := ⟨1, 4, by decide, Nat.coprime_one_left 4⟩

/-- The canvas-coordinate region covered by the opaque disk of the pasted mask:
pixel `(x, y)` lies inside the pasted rectangle at offset `pos` and its
rectangle-relative position is inside the inscribed ellipse the mask draws. -/
def inLogoDisk (pos : Int × Int) (lw lh x y : Nat) : Prop :=
  0 ≤ (x : Int) - pos.1 ∧ (x : Int) - pos.1 < (lw : Int) ∧
    0 ≤ (y : Int) - pos.2 ∧ (y : Int) - pos.2 < (lh : Int) ∧
    inEllipse lw lh ((x : Int) - pos.1).toNat ((y : Int) - pos.2).toNat

instance (pos : Int × Int) (lw lh x y : Nat) : Decidable (inLogoDisk pos lw lh x y) := by
  unfold inLogoDisk; exact inferInstance

/-- Companion region that follows the claim wording: the strict inscribed
circle (radius `min lw lh / 2`) in place of the ellipse the code draws. -/
def inLogoCircle (pos : Int × Int) (lw lh x y : Nat) : Prop :=
  0 ≤ (x : Int) - pos.1 ∧ (x : Int) - pos.1 < (lw : Int) ∧
    0 ≤ (y : Int) - pos.2 ∧ (y : Int) - pos.2 < (lh : Int) ∧
    inCircle lw lh ((x : Int) - pos.1).toNat ((y : Int) - pos.2).toNat

instance (pos : Int × Int) (lw lh x y : Nat) : Decidable (inLogoCircle pos lw lh x y) := by
  unfold inLogoCircle; exact inferInstance

instance {ε α : Type} [DecidableEq ε] [DecidableEq α] : DecidableEq (Except ε α) :=
  fun a b =>
    match a, b with
    | .ok a, .ok b => decidable_of_iff (a = b) (by simp)
    | .error a, .error b => decidable_of_iff (a = b) (by simp)
    | .ok _, .error _ => isFalse (by simp)
    | .error _, .ok _ => isFalse (by simp)

/-- A payload one byte longer than the byte capacity of version 40 at level H. -/
def bigPayload : String := String.mk (List.replicate 1274 'a')


/-- At mask value 0 the PIL blend keeps the destination pixel exactly. -/
lemma blend_mask_zero (d s : Nat) : blend d s 0 = d := by unfold blend; omega

/-- At mask value 255 the PIL blend takes the source pixel exactly. -/
lemma blend_mask_full (d s : Nat) : blend d s 255 = s := by unfold blend; omega

/-- Floor division by two is at most half away from the exact quotient. -/
lemma fdiv_two (n : Int) : 2 * (n.fdiv 2) ≤ n ∧ n ≤ 2 * (n.fdiv 2) + 1 := by
  rw [Int.fdiv_eq_ediv _ (by norm_num : (0:Int) ≤ 2)]
  omega

/-- The width-branch rounding always returns the clamped floor or ceiling. -/
lemma roundAspectA_spec (num den : Nat) :
    roundAspectA num den = max (num / den) 1 ∨
      roundAspectA num den = max ((num + den - 1) / den) 1 := by
  unfold roundAspectA
  dsimp only
  split
  · exact Or.inl rfl
  · exact Or.inr rfl

/-- The height-branch rounding always returns the clamped floor or ceiling. -/
lemma roundAspectB_spec (num den : Nat) :
    roundAspectB num den = max (num / den) 1 ∨
      roundAspectB num den = max ((num + den - 1) / den) 1 := by
  unfold roundAspectB
  dsimp only
  split
  · exact Or.inl rfl
  · split
    · exact Or.inl rfl
    · exact Or.inr rfl

/-- Clamping to at least 1 respects an upper bound that is itself at least 1. -/
lemma maxc_le {c k : Nat} (hk : 1 ≤ k) (hc : c ≤ k) : max c 1 ≤ k :=
  Nat.max_le.mpr ⟨hc, hk⟩

/-- The floor candidate respects the target bound. -/
lemma div_le_of_le_mul {num den k : Nat} (h : num ≤ k * den) :
    num / den ≤ k :=
  Nat.div_le_of_le_mul (by rwa [Nat.mul_comm] at h)

/-- The ceiling candidate respects the target bound. -/
lemma ceil_le_of_le_mul {num den k : Nat} (hden : 0 < den) (h : num ≤ k * den) :
    (num + den - 1) / den ≤ k := by
  set t := k * den with ht
  have h2 : num + den - 1 < (k + 1) * den := by
    have h3 : (k + 1) * den = t + den := by rw [ht]; ring
    rw [h3]; omega
  exact Nat.lt_succ_iff.mp ((Nat.div_lt_iff_lt_mul hden).mpr h2)

/-- Either rounding choice respects the target bound. -/
lemma roundAspect_le {num den k f : Nat} (hden : 0 < den) (hk : 1 ≤ k) (h : num ≤ k * den)
    (hf : f = max (num / den) 1 ∨ f = max ((num + den - 1) / den) 1) : f ≤ k := by
  rcases hf with rfl | rfl
  · exact maxc_le hk (div_le_of_le_mul h)
  · exact maxc_le hk (ceil_le_of_le_mul hden h)

/-- Either clamped rounding choice is within one denominator of the exact
aspect-preserving value, in cross-multiplied form. -/
lemma maxc_aspect {num den c : Nat} (hden : 0 < den)
    (hc : c = num / den ∨ c = (num + den - 1) / den) :
    |((max c 1 : Nat) : Int) * den - num| ≤ (den : Int) := by
  rw [abs_le]
  rcases hc with rfl | rfl
  · set q := num / den with hq
    have hA : den * q + num % den = num := Nat.div_add_mod num den
    have hB : num % den < den := Nat.mod_lt num hden
    set m := num % den with hm
    rcases Nat.eq_zero_or_pos q with h0 | h0
    · rw [h0] at hA ⊢
      rw [Nat.max_eq_right (Nat.zero_le 1)]
      have hnum : num < den := by omega
      push_cast
      omega
    · rw [Nat.max_eq_left h0]
      have hA2 : (den : Int) * q + m = num := by exact_mod_cast hA
      have hB2 : (m : Int) < den := by exact_mod_cast hB
      have hm0 : (0 : Int) ≤ m := by positivity
      constructor <;> linarith
  · set q := (num + den - 1) / den with hq
    have hA : den * q + (num + den - 1) % den = num + den - 1 :=
      Nat.div_add_mod (num + den - 1) den
    have hB : (num + den - 1) % den < den := Nat.mod_lt (num + den - 1) hden
    set m := (num + den - 1) % den with hm
    rcases Nat.eq_zero_or_pos q with h0 | h0
    · rw [h0] at hA ⊢
      rw [Nat.max_eq_right (Nat.zero_le 1)]
      have hnum : num = 0 := by omega
      subst hnum
      push_cast
      omega
    · rw [Nat.max_eq_left h0]
      have hA2 : (den : Int) * q + m = (num : Int) + den - 1 := by
        have hcast : ((num + den - 1 : Nat) : Int) = (num : Int) + den - 1 := by omega
        have := congrArg (fun t : Nat => (t : Int)) hA
        push_cast at this
        rw [this, hcast]
      have hB2 : (m : Int) < den := by exact_mod_cast hB
      have hm0 : (0 : Int) ≤ m := by positivity
      constructor <;> linarith

/-- Aspect-error bound for the width-branch rounding. -/
lemma roundAspectA_aspect {num den : Nat} (hden : 0 < den) :
    |((roundAspectA num den : Nat) : Int) * den - num| ≤ (den : Int) := by
  rcases roundAspectA_spec num den with hs | hs <;> rw [hs]
  · exact maxc_aspect hden (Or.inl rfl)
  · exact maxc_aspect hden (Or.inr rfl)

/-- Aspect-error bound for the height-branch rounding. -/
lemma roundAspectB_aspect {num den : Nat} (hden : 0 < den) :
    |((roundAspectB num den : Nat) : Int) * den - num| ≤ (den : Int) := by
  rcases roundAspectB_spec num den with hs | hs <;> rw [hs]
  · exact maxc_aspect hden (Or.inl rfl)
  · exact maxc_aspect hden (Or.inr rfl)

/-- Main properties of the thumbnail size computation: on success the result
fits the requested box, never exceeds the original dimensions, and preserves
the aspect ratio up to one pixel of integer rounding. -/
lemma thumbnailSizeE_ok {w h x y lw lh : Nat} (hw : 0 < w) (hh : 0 < h)
    (hx : 1 ≤ x) (hy : 1 ≤ y)
    (hok : thumbnailSizeE w h x y = .ok (lw, lh)) :
    lw ≤ x ∧ lh ≤ y ∧ lw ≤ w ∧ lh ≤ h ∧
      |(lw : Int) * h - (lh : Int) * w| ≤ ((max w h : Nat) : Int) := by
  unfold thumbnailSizeE at hok
  split at hok
  next h1 =>
    obtain ⟨hA, hB⟩ : w = lw ∧ h = lh := by simpa using hok
    subst hA
    subst hB
    refine ⟨h1.1, h1.2, le_refl _, le_refl _, ?_⟩
    have hz : (w : Int) * h - (h : Int) * w = 0 := by ring
    rw [hz]
    simp
  next h1 =>
    split at hok
    next h2 => simp at hok
    next h2 =>
      split at hok
      next h3 =>
        obtain ⟨hA, hB⟩ : roundAspectA (y * w) h = lw ∧ y = lh := by simpa using hok
        subst hA
        subst hB
        have hhy : y < h := by
          by_contra hyh
          push_neg at hyh
          refine h1 ⟨Nat.le_of_mul_le_mul_right ?_ hh, hyh⟩
          calc w * h ≤ y * w := by
                rw [Nat.mul_comm y w]
                exact Nat.mul_le_mul (le_refl w) hyh
          _ ≤ x * h := h3
        refine ⟨roundAspect_le hh hx h3 (roundAspectA_spec _ _), le_refl _, ?_,
          Nat.le_of_lt hhy, ?_⟩
        · refine roundAspect_le hh hw ?_ (roundAspectA_spec _ _)
          calc y * w ≤ h * w := Nat.mul_le_mul (Nat.le_of_lt hhy) (le_refl w)
          _ = w * h := Nat.mul_comm _ _
        · have ha := @roundAspectA_aspect (y * w) h hh
          push_cast at ha
          exact le_trans ha (by exact_mod_cast Nat.le_max_right w h)
      next h3 =>
        obtain ⟨hA, hB⟩ : x = lw ∧ roundAspectB (x * h) w = lh := by simpa using hok
        subst hA
        subst hB
        have h3le : x * h ≤ y * w := Nat.le_of_lt (Nat.lt_of_not_le h3)
        have hxw : x < w := by
          by_contra hxw
          push_neg at hxw
          refine h1 ⟨hxw, Nat.le_of_mul_le_mul_right ?_ hw⟩
          calc h * w ≤ x * h := by
                rw [Nat.mul_comm x h]
                exact Nat.mul_le_mul (le_refl h) hxw
          _ ≤ y * w := h3le
        refine ⟨le_refl _, roundAspect_le hw hy h3le (roundAspectB_spec _ _),
          Nat.le_of_lt hxw, ?_, ?_⟩
        · refine roundAspect_le hw hh ?_ (roundAspectB_spec _ _)
          calc x * h ≤ w * h := Nat.mul_le_mul (Nat.le_of_lt hxw) (le_refl h)
          _ = h * w := Nat.mul_comm _ _
        · have ha := @roundAspectB_aspect (x * h) w hw
          push_cast at ha
          rw [abs_sub_comm]
          exact le_trans ha (by exact_mod_cast Nat.le_max_left w h)

/-- With a ratio of at most one, the target box side never exceeds the canvas side. -/
lemma logoTarget_le {len : Nat} {r : ℚ} (hr1 : r ≤ 1) :
    logoTarget len r ≤ len := by
  unfold logoTarget
  have hdpos : (0 : Int) < (r.den : Int) := by exact_mod_cast r.pos
  rw [Int.fdiv_eq_ediv _ (le_of_lt hdpos)]
  rw [Int.toNat_le]
  have hnd : r.num ≤ (r.den : Int) := by
    have := Rat.le_def.mp hr1
    simpa using this
  calc ((len : Int) * r.num) / (r.den : Int)
      ≤ ((len : Int) * r.den) / (r.den : Int) :=
        Int.ediv_le_ediv hdpos (mul_le_mul_of_nonneg_left hnd (by positivity))
  _ = len := Int.mul_ediv_cancel _ (by omega)

/-- Reduction of `composeLogo` once the thumbnail size computation succeeds. -/
lemma composeLogo_eq {qrImg : Img RGB} {logo : Img RGBA} {r : ℚ} {lw lh : Nat}
    (hok : thumbnailSizeE logo.width logo.height (logoTarget qrImg.width r)
      (logoTarget qrImg.height r) = .ok (lw, lh)) :
    composeLogo qrImg logo r
      = .ok (pasteRGB qrImg (roundedLogo logo lw lh)
          (pastePos qrImg.width qrImg.height lw lh)) := by
  unfold composeLogo
  rw [hok]

/-- Reduction of the full pipeline on a readable logo once the thumbnail size
computation succeeds. -/
lemma generate_readable_eq {grid : List (List Bool)} {logo : Img RGBA} {r : ℚ} {lw lh : Nat}
    (hok : thumbnailSizeE logo.width logo.height (logoTarget (renderQR grid).width r)
      (logoTarget (renderQR grid).height r) = .ok (lw, lh)) :
    generate_qr_code_with_logo grid (.readable logo) r
      = .ok { image := pasteRGB (renderQR grid) (roundedLogo logo lw lh)
                (pastePos (renderQR grid).width (renderQR grid).height lw lh),
              logoWarning := false } := by
  unfold generate_qr_code_with_logo
  dsimp only
  rw [composeLogo_eq hok]

/-- A successful `composeLogo` keeps the canvas dimensions. -/
lemma composeLogo_ok_dims {qrImg : Img RGB} {logo : Img RGBA} {r : ℚ} {im : Img RGB}
    (h : composeLogo qrImg logo r = .ok im) :
    im.width = qrImg.width ∧ im.height = qrImg.height := by
  unfold composeLogo at h
  split at h
  next => simp at h
  next lw lh heq =>
    obtain rfl : pasteRGB qrImg (roundedLogo logo lw lh)
        (pastePos qrImg.width qrImg.height lw lh) = im := by simpa using h
    exact ⟨rfl, rfl⟩

/-- Pixels outside the pasted rectangle are untouched by `pasteRGB`. -/
lemma pasteRGB_px_not_rect {dest : Img RGB} {src : Img RGBA} {pos : Int × Int} {x y : Nat}
    (h : ¬ (0 ≤ (x : Int) - pos.1 ∧ (x : Int) - pos.1 < (src.width : Int) ∧
            0 ≤ (y : Int) - pos.2 ∧ (y : Int) - pos.2 < (src.height : Int))) :
    (pasteRGB dest src pos).px x y = dest.px x y := by
  unfold pasteRGB
  dsimp only
  rw [if_neg h]

/-- Pixels whose source alpha is zero are untouched by `pasteRGB`. -/
lemma pasteRGB_px_alpha_zero {dest : Img RGB} {src : Img RGBA} {pos : Int × Int} {x y : Nat}
    (hrect : 0 ≤ (x : Int) - pos.1 ∧ (x : Int) - pos.1 < (src.width : Int) ∧
        0 ≤ (y : Int) - pos.2 ∧ (y : Int) - pos.2 < (src.height : Int))
    (ha : (src.px ((x : Int) - pos.1).toNat ((y : Int) - pos.2).toNat).a = 0) :
    (pasteRGB dest src pos).px x y = dest.px x y := by
  unfold pasteRGB
  dsimp only
  rw [if_pos hrect, ha, blend_mask_zero, blend_mask_zero, blend_mask_zero]

/-- Outside the inscribed ellipse the rounded logo is fully transparent: the
mask is 0 there, so pasting onto the fresh transparent canvas leaves alpha 0. -/
lemma roundedLogo_alpha_of_not_inEllipse {logo : Img RGBA} {lw lh relx rely : Nat}
    (hx : relx < lw) (hy : rely < lh) (hne : ¬ inEllipse lw lh relx rely) :
    ((roundedLogo logo lw lh).px relx rely).a = 0 := by
  have hmask : (ellipseMask lw lh).px relx rely = 0 := by
    unfold ellipseMask
    dsimp only
    rw [if_neg hne]
  unfold roundedLogo pasteMaskedRGBA
  dsimp only
  rw [if_pos ⟨hx, hy, hx, hy⟩]
  dsimp only
  rw [hmask, blend_mask_zero]
  rfl

/-- Length of the oversized payload. -/
lemma bigPayload_length : bigPayload.length = 1274 := by
  show (List.replicate 1274 'a').length = 1274
  rw [List.length_replicate]

/-- C1, amended: for every module grid and ratio, a missing logo file makes
`generate_qr_code_with_logo` return the bare QR canvas unmodified together
with the `LogoUnavailable` warning signal and raise nothing, while
present-but-unreadable logo bytes make `Image.open` raise, aborting the
pipeline. -/
theorem C1_missing_logo_degrades_gracefully (grid : List (List Bool)) (r : ℚ) :
    generate_qr_code_with_logo grid LogoSource.missing r
        = .ok { image := renderQR grid, logoWarning := true } ∧
      generate_qr_code_with_logo grid LogoSource.unreadable r
        = .error PILError.unidentifiedImage :=
  ⟨rfl, rfl⟩

/-- C1, counterexample to the claim as stated: at the concrete grid
`sampleGrid`, ratio 1/4 and an unreadable logo resource, the compose operation
raises (the uncaught `UnidentifiedImageError` of `Image.open` on app.py line
44) instead of returning the bare canvas with a `LogoUnavailable` signal. -/
theorem C1_unreadable_logo_raises :
    generate_qr_code_with_logo sampleGrid LogoSource.unreadable quarterRat
      = .error PILError.unidentifiedImage := rfl

/-- C2, amended: compositing only changes canvas pixels inside the opaque disk
of the mask, where that disk is the ellipse inscribed in the bounding box of
the resized logo (touching all four edges, a circle exactly when the box is
square): every composited pixel outside the region equals the pre-composite
canvas pixel at the same coordinate. -/
theorem C2_outside_mask_ellipse_unchanged (grid : List (List Bool)) (logo : Img RGBA)
    (r : ℚ) (lw lh x y : Nat)
    (hok : thumbnailSizeE logo.width logo.height (logoTarget (renderQR grid).width r)
      (logoTarget (renderQR grid).height r) = .ok (lw, lh))
    (hout : ¬ inLogoDisk (pastePos (renderQR grid).width (renderQR grid).height lw lh)
      lw lh x y) :
    (generate_qr_code_with_logo grid (.readable logo) r).map (fun o => o.image.px x y)
      = .ok ((renderQR grid).px x y) := by
  rw [generate_readable_eq hok]
  simp only [Except.map, Except.ok.injEq]
  by_cases hrect : 0 ≤ (x : Int) - (pastePos (renderQR grid).width (renderQR grid).height lw lh).1 ∧
      (x : Int) - (pastePos (renderQR grid).width (renderQR grid).height lw lh).1 < (lw : Int) ∧
      0 ≤ (y : Int) - (pastePos (renderQR grid).width (renderQR grid).height lw lh).2 ∧
      (y : Int) - (pastePos (renderQR grid).width (renderQR grid).height lw lh).2 < (lh : Int)
  · have hne : ¬ inEllipse lw lh
        ((x : Int) - (pastePos (renderQR grid).width (renderQR grid).height lw lh).1).toNat
        ((y : Int) - (pastePos (renderQR grid).width (renderQR grid).height lw lh).2).toNat := by
      intro hcontra
      exact hout ⟨hrect.1, hrect.2.1, hrect.2.2.1, hrect.2.2.2, hcontra⟩
    apply pasteRGB_px_alpha_zero hrect
    apply roundedLogo_alpha_of_not_inEllipse
    · exact (Int.toNat_lt hrect.1).mpr hrect.2.1
    · exact (Int.toNat_lt hrect.2.2.1).mpr hrect.2.2.2
    · exact hne
  · exact pasteRGB_px_not_rect hrect

/-- C2, witness: concrete instantiation of the amended frame property at
canvas pixel (0, 0), which lies outside the pasted disk. -/
theorem C2_witness :
    thumbnailSizeE logoC.width logoC.height (logoTarget (renderQR sampleGrid).width quarterRat)
        (logoTarget (renderQR sampleGrid).height quarterRat) = .ok (72, 18) ∧
      ¬ inLogoDisk (pastePos (renderQR sampleGrid).width (renderQR sampleGrid).height 72 18)
        72 18 0 0 ∧
      (generate_qr_code_with_logo sampleGrid (.readable logoC) quarterRat).map
          (fun o => o.image.px 0 0) = .ok ((renderQR sampleGrid).px 0 0) :=
  ⟨by decide, by decide,
    C2_outside_mask_ellipse_unchanged sampleGrid logoC quarterRat 72 18 0 0 (by decide) (by decide)⟩

/-- C2, counterexample to the claim as stated: with the 400 x 100 red logo
resized to 72 x 18, canvas pixel (110, 145) lies outside the inscribed circle
of the resized logo bounding box (its mask-relative position (1, 9) is outside
the radius-9 circle) yet the composited pixel differs from the pre-composite
canvas pixel, so for non-square logos pixels outside the inscribed circle do
change. -/
theorem C2_changed_pixel_outside_inscribed_circle :
    thumbnailSizeE logoC.width logoC.height (logoTarget (renderQR sampleGrid).width quarterRat)
        (logoTarget (renderQR sampleGrid).height quarterRat) = .ok (72, 18) ∧
      ¬ inLogoCircle (pastePos (renderQR sampleGrid).width (renderQR sampleGrid).height 72 18)
        72 18 110 145 ∧
      (generate_qr_code_with_logo sampleGrid (.readable logoC) quarterRat).map
          (fun o => o.image.px 110 145) ≠ .ok ((renderQR sampleGrid).px 110 145) :=
  ⟨by decide, by decide, by decide⟩

/-- C3: for every payload the encoder configuration built by
`generate_qr_code_with_logo` fixes the error-correction level at the highest
standard tier H, and the configuration is identical for all payloads - no code
path and no parameter selects any other level. -/
theorem C3_error_correction_always_H (url url2 : String) :
    (qrConfigFor url).error_correction = ErrorCorrection.H ∧ qrConfigFor url = qrConfigFor url2 :=
  ⟨rfl, rfl⟩

/-- C4: the paste offset equals ((W - logo_w) // 2, (H - logo_h) // 2) with
integer floor division, and twice the offset of the logo bounding-box centre
from the canvas centre is at most 1 in each axis, so the centres differ by at
most one pixel for every parity combination of the dimensions. -/
theorem C4_paste_offset_centers_logo (w h lw lh : Nat) :
    pastePos w h lw lh = (((w : Int) - lw).fdiv 2, ((h : Int) - lh).fdiv 2) ∧
      |2 * (pastePos w h lw lh).1 + lw - w| ≤ 1 ∧
      |2 * (pastePos w h lw lh).2 + lh - h| ≤ 1 := by
  have e1 : (pastePos w h lw lh).1 = ((w : Int) - lw).fdiv 2 := rfl
  have e2 : (pastePos w h lw lh).2 = ((h : Int) - lh).fdiv 2 := rfl
  refine ⟨rfl, ?_, ?_⟩
  · rw [e1]
    have hq := fdiv_two ((w : Int) - lw)
    rw [abs_le]
    generalize hqe : ((w : Int) - lw).fdiv 2 = q at hq ⊢
    omega
  · rw [e2]
    have hq := fdiv_two ((h : Int) - lh)
    rw [abs_le]
    generalize hqe : ((h : Int) - lh).fdiv 2 = q at hq ⊢
    omega

/-- C5: the resized logo fits inside the ratio-derived target bounding box,
never exceeds the original resolution in either dimension (thumbnail
semantics never enlarge), and preserves the original aspect ratio up to the
one-pixel integer rounding of the Pillow `round_aspect` choice. -/
theorem C5_thumbnail_shrinks_into_target_box (W H : Nat) (r : ℚ) (logo : Img RGBA)
    (lw lh : Nat) (hw : 0 < logo.width) (hh : 0 < logo.height)
    (hx : 1 ≤ logoTarget W r) (hy : 1 ≤ logoTarget H r)
    (hok : thumbnailSizeE logo.width logo.height (logoTarget W r) (logoTarget H r)
      = .ok (lw, lh)) :
    lw ≤ logoTarget W r ∧ lh ≤ logoTarget H r ∧ lw ≤ logo.width ∧ lh ≤ logo.height ∧
      |(lw : Int) * logo.height - (lh : Int) * logo.width|
        ≤ ((max logo.width logo.height : Nat) : Int) :=
  thumbnailSizeE_ok hw hh hx hy hok

/-- C5, witness: the 400 x 100 logo thumbnailed into the 72 x 72 target box of
a 290-pixel canvas at ratio 1/4 comes out 72 x 18. -/
theorem C5_witness :
    0 < logoC.width ∧ 0 < logoC.height ∧ 1 ≤ logoTarget 290 quarterRat ∧
      (72 ≤ logoTarget 290 quarterRat ∧ 18 ≤ logoTarget 290 quarterRat ∧
        72 ≤ logoC.width ∧ 18 ≤ logoC.height ∧
        |(72 : Int) * logoC.height - (18 : Int) * logoC.width|
          ≤ ((max logoC.width logoC.height : Nat) : Int)) :=
  ⟨by decide, by decide, by decide,
    C5_thumbnail_shrinks_into_target_box 290 290 quarterRat logoC 72 18 (by decide) (by decide)
      (by decide) (by decide) (by decide)⟩

/-- C6, amended: the mask is a single-channel raster with exactly the resized
logo dimensions, fully opaque on the ellipse inscribed in the bounding
rectangle - the disk touching all four edges - and fully transparent off it;
that disk is the inscribed circle exactly when the resized logo is square. -/
theorem C6_mask_dims_and_inscribed_ellipse (w h x y : Nat) (hw : 0 < w) (hh : 0 < h) :
    (ellipseMask w h).width = w ∧ (ellipseMask w h).height = h ∧
      ((ellipseMask w h).px x y = 255 ↔ inEllipse w h x y) ∧
      ((ellipseMask w h).px x y = 0 ↔ ¬ inEllipse w h x y) ∧
      (w = h → ((ellipseMask w h).px x y = 255 ↔ inCircle w h x y)) := by
  refine ⟨rfl, rfl, ?_, ?_, ?_⟩
  · by_cases he : inEllipse w h x y <;> simp [ellipseMask, he]
  · by_cases he : inEllipse w h x y <;> simp [ellipseMask, he]
  · intro hwh
    subst hwh
    have hwpos : (0 : Int) < (w : Int) ^ 2 := by
      have : (0 : Int) < (w : Int) := by exact_mod_cast hw
      positivity
    have hiff : inEllipse w w x y ↔ inCircle w w x y := by
      unfold inEllipse inCircle
      rw [min_self]
      constructor
      · intro hle
        nlinarith [hle, hwpos]
      · intro hle
        nlinarith [mul_le_mul_of_nonneg_right hle (le_of_lt hwpos)]
    rw [← hiff]
    by_cases he : inEllipse w w x y <;> simp [ellipseMask, he]

/-- C6, witness: concrete instantiation of the mask shape property on a square
4 x 4 mask at pixel (1, 1). -/
theorem C6_witness :
    0 < 4 ∧ ((ellipseMask 4 4).width = 4 ∧ (ellipseMask 4 4).height = 4 ∧
      ((ellipseMask 4 4).px 1 1 = 255 ↔ inEllipse 4 4 1 1) ∧
      ((ellipseMask 4 4).px 1 1 = 0 ↔ ¬ inEllipse 4 4 1 1) ∧
      (4 = 4 → ((ellipseMask 4 4).px 1 1 = 255 ↔ inCircle 4 4 1 1))) :=
  ⟨by decide, C6_mask_dims_and_inscribed_ellipse 4 4 1 1 (by decide) (by decide)⟩

/-- C6, counterexample to the claim as stated: the realizable 72 x 18
resized-logo mask is fully opaque at pixel (1, 9), which lies outside the
inscribed circle of the bounding box, refuting fully-transparent-outside-the-
circle for non-square resized logos. -/
theorem C6_opaque_pixel_outside_circle :
    thumbnailSizeE logoC.width logoC.height (logoTarget (renderQR sampleGrid).width quarterRat)
        (logoTarget (renderQR sampleGrid).height quarterRat) = .ok (72, 18) ∧
      ¬ inCircle 72 18 1 9 ∧ (ellipseMask 72 18).px 1 9 = 255 :=
  ⟨by decide, by decide, by decide⟩

/-- C7: every payload whose length fits the byte capacity of the largest
supported grid version (40) at level H is encoded by auto-selecting a
sufficient version between 1 and 40 (fit policy) and a symbol is produced;
every longer payload fails with `CapacityExceeded` and no symbol is produced. -/
theorem C7_capacity_fit_policy (p : String) :
    (p.length ≤ capacityH 40 →
      ∃ v, encodeQR p = .ok { version := v, moduleCount := 17 + 4 * v } ∧
        p.length ≤ capacityH v ∧ 1 ≤ v ∧ v ≤ 40) ∧
    (capacityH 40 < p.length → encodeQR p = .error .capacityExceeded) := by
  cases hfind : fitVersionH p.length with
  | some v =>
      have hfind2 : List.find? (fun u => decide (p.length ≤ capacityH u)) versionList
          = some v := hfind
      have hpred := List.find?_some hfind2
      simp only [decide_eq_true_eq] at hpred
      have hle : p.length ≤ capacityH v := hpred
      have hmem : v ∈ versionList := List.mem_of_find?_eq_some hfind2
      have hbounds : 1 ≤ v ∧ v ≤ 40 := by
        simp only [versionList, List.mem_map, List.mem_range] at hmem
        obtain ⟨i, hi, rfl⟩ := hmem
        omega
      have hcap : capacityH v ≤ 1273 := by
        obtain ⟨h1v, h40⟩ := hbounds
        interval_cases v <;> decide
      refine ⟨fun _ => ⟨v, ?_, hle, hbounds.1, hbounds.2⟩, fun hover => ?_⟩
      · unfold encodeQR
        rw [hfind]
      · exfalso
        have hc40 : capacityH 40 = 1273 := rfl
        omega
  | none =>
      refine ⟨fun hfit => ?_, fun _ => ?_⟩
      · exfalso
        have h40 : (40 : Nat) ∈ versionList := by decide
        have hfind2 : List.find? (fun u => decide (p.length ≤ capacityH u)) versionList
            = none := hfind
        have hnot := List.find?_eq_none.mp hfind2 40 h40
        simp only [decide_eq_true_eq] at hnot
        exact hnot hfit
      · unfold encodeQR
        rw [hfind]

/-- C7, witness: a 19-byte URL encodes (version 1 suffices), and a 1274-byte
payload exceeds the version-40 capacity 1273 and fails. -/
theorem C7_witness :
    ("https://example.org".length ≤ capacityH 40 ∧
      ∃ v, encodeQR "https://example.org" = .ok { version := v, moduleCount := 17 + 4 * v } ∧
        "https://example.org".length ≤ capacityH v ∧ 1 ≤ v ∧ v ≤ 40) ∧
      (capacityH 40 < bigPayload.length ∧
        encodeQR bigPayload = .error .capacityExceeded) :=
  ⟨⟨by decide, (C7_capacity_fit_policy "https://example.org").1 (by decide)⟩,
   ⟨by rw [bigPayload_length]; decide,
    (C7_capacity_fit_policy bigPayload).2 (by rw [bigPayload_length]; decide)⟩⟩

/-- C8: the compose pipeline is deterministic: two runs on identical module
grid, logo input and ratio produce byte-identical serialised output. The
embedding is a pure function of its inputs because the source consults no
randomness, clock or mutable state in the pipeline. -/
theorem C8_compose_deterministic (g1 g2 : List (List Bool)) (l1 l2 : LogoSource) (r1 r2 : ℚ)
    (hg : g1 = g2) (hl : l1 = l2) (hr : r1 = r2) :
    composeBytes g1 l1 r1 = composeBytes g2 l2 r2 := by
  subst hg
  subst hl
  subst hr
  rfl

/-- C8, witness: two runs on the sample inputs agree. -/
theorem C8_witness :
    sampleGrid = sampleGrid ∧
      composeBytes sampleGrid LogoSource.missing quarterRat
        = composeBytes sampleGrid LogoSource.missing quarterRat :=
  ⟨rfl, C8_compose_deterministic sampleGrid sampleGrid LogoSource.missing LogoSource.missing
    quarterRat quarterRat rfl rfl rfl⟩

/-- C9: for every ratio in (0, 1) whose target box is at least one pixel (in
particular the fixed 1/4 on every real canvas), the resized logo dimensions
never exceed the canvas dimensions, both components of the paste offset are
non-negative, and the pasted logo rectangle lies entirely within the canvas. -/
theorem C9_logo_fits_within_canvas (grid : List (List Bool)) (logo : Img RGBA) (r : ℚ)
    (lw lh : Nat) (_hr0 : 0 < r) (hr1 : r < 1)
    (hw : 0 < logo.width) (hh : 0 < logo.height)
    (hx : 1 ≤ logoTarget (renderQR grid).width r)
    (hy : 1 ≤ logoTarget (renderQR grid).height r)
    (hok : thumbnailSizeE logo.width logo.height (logoTarget (renderQR grid).width r)
      (logoTarget (renderQR grid).height r) = .ok (lw, lh)) :
    lw ≤ (renderQR grid).width ∧ lh ≤ (renderQR grid).height ∧
      0 ≤ (pastePos (renderQR grid).width (renderQR grid).height lw lh).1 ∧
      0 ≤ (pastePos (renderQR grid).width (renderQR grid).height lw lh).2 ∧
      (pastePos (renderQR grid).width (renderQR grid).height lw lh).1 + (lw : Int)
        ≤ ((renderQR grid).width : Int) ∧
      (pastePos (renderQR grid).width (renderQR grid).height lw lh).2 + (lh : Int)
        ≤ ((renderQR grid).height : Int) := by
  obtain ⟨hfit1, hfit2, _, _, _⟩ := thumbnailSizeE_ok hw hh hx hy hok
  have hW : lw ≤ (renderQR grid).width := le_trans hfit1 (logoTarget_le (le_of_lt hr1))
  have hH : lh ≤ (renderQR grid).height := le_trans hfit2 (logoTarget_le (le_of_lt hr1))
  have e1 : (pastePos (renderQR grid).width (renderQR grid).height lw lh).1
      = (((renderQR grid).width : Int) - lw).fdiv 2 := rfl
  have e2 : (pastePos (renderQR grid).width (renderQR grid).height lw lh).2
      = (((renderQR grid).height : Int) - lh).fdiv 2 := rfl
  rw [e1, e2]
  have hq1 := fdiv_two (((renderQR grid).width : Int) - lw)
  have hq2 := fdiv_two (((renderQR grid).height : Int) - lh)
  have hWle : (lw : Int) ≤ ((renderQR grid).width : Int) := by exact_mod_cast hW
  have hHle : (lh : Int) ≤ ((renderQR grid).height : Int) := by exact_mod_cast hH
  generalize hq1e : (((renderQR grid).width : Int) - lw).fdiv 2 = q1 at hq1 ⊢
  generalize hq2e : (((renderQR grid).height : Int) - lh).fdiv 2 = q2 at hq2 ⊢
  exact ⟨hW, hH, by omega, by omega, by omega, by omega⟩

/-- C9, witness: concrete instantiation on the sample canvas and logo. -/
theorem C9_witness :
    (0 : ℚ) < quarterRat ∧ quarterRat < 1 ∧
      thumbnailSizeE logoC.width logoC.height
        (logoTarget (renderQR sampleGrid).width quarterRat)
        (logoTarget (renderQR sampleGrid).height quarterRat) = .ok (72, 18) ∧
      (72 ≤ (renderQR sampleGrid).width ∧ 18 ≤ (renderQR sampleGrid).height ∧
        0 ≤ (pastePos (renderQR sampleGrid).width (renderQR sampleGrid).height 72 18).1 ∧
        0 ≤ (pastePos (renderQR sampleGrid).width (renderQR sampleGrid).height 72 18).2 ∧
        (pastePos (renderQR sampleGrid).width (renderQR sampleGrid).height 72 18).1 + (72 : Int)
          ≤ ((renderQR sampleGrid).width : Int) ∧
        (pastePos (renderQR sampleGrid).width (renderQR sampleGrid).height 72 18).2 + (18 : Int)
          ≤ ((renderQR sampleGrid).height : Int)) :=
  ⟨by decide, by decide, by decide,
    C9_logo_fits_within_canvas sampleGrid logoC quarterRat 72 18 (by decide) (by decide)
      (by decide) (by decide) (by decide) (by decide) (by decide)⟩

/-- C10: whenever `generate_qr_code_with_logo` returns an image (logo readable
or logo file absent), the image is an RGB image - the `Img RGB` result type of
the embedding - whose pixel dimensions equal those of the bare QR render, and
Python truthiness of the result is true, so the caller guard on app.py line
238 never takes the false branch. -/
theorem C10_result_keeps_canvas_dims (grid : List (List Bool)) (logo : LogoSource) (r : ℚ)
    (out : GenOutput) (hok : generate_qr_code_with_logo grid logo r = .ok out) :
    out.image.width = (renderQR grid).width ∧ out.image.height = (renderQR grid).height ∧
      pilTruthy out.image = true := by
  cases logo with
  | missing =>
      obtain rfl : { image := renderQR grid, logoWarning := true } = out := by
        simpa [generate_qr_code_with_logo] using hok
      exact ⟨rfl, rfl, rfl⟩
  | unreadable => simp [generate_qr_code_with_logo] at hok
  | readable lg =>
      unfold generate_qr_code_with_logo at hok
      dsimp only at hok
      split at hok
      next im heq =>
        obtain rfl : { image := im, logoWarning := false } = out := by simpa using hok
        obtain ⟨h1, h2⟩ := composeLogo_ok_dims heq
        exact ⟨h1, h2, rfl⟩
      next e heq => simp at hok

/-- C10, witness: the missing-logo run returns the bare canvas with unchanged
dimensions. -/
theorem C10_witness :
    generate_qr_code_with_logo sampleGrid LogoSource.missing quarterRat
        = .ok { image := renderQR sampleGrid, logoWarning := true } ∧
      (({ image := renderQR sampleGrid, logoWarning := true } : GenOutput).image.width
          = (renderQR sampleGrid).width ∧
        ({ image := renderQR sampleGrid, logoWarning := true } : GenOutput).image.height
          = (renderQR sampleGrid).height ∧
        pilTruthy ({ image := renderQR sampleGrid, logoWarning := true } : GenOutput).image
          = true) :=
  ⟨rfl, C10_result_keeps_canvas_dims sampleGrid LogoSource.missing quarterRat
    { image := renderQR sampleGrid, logoWarning := true } rfl⟩
